import Mathlib

/-!
# Verification of the ccxt-ohlcv-loader core

Shallow embedding of the TypeScript sources of `ccxt-ohlcv-loader`:

* `src/loading/fetch-ohlcv.ts` (the unnamed source file): probe, range
  planner, paged fetcher with rate-limit retry, merge/dedup/trim, and the
  missing-candle gap counter inside `fetchOHLCVData`;
* `src/parsing/ohlcv.ts`: `parseOHLCVData`, `deduplicateOHLCVData`,
  `filterCompleteCandles`;
* `src/persistence/db.ts`: the keyed upsert of `persistToPostgres`
  (`ON CONFLICT (symbol, open_time) DO UPDATE SET open, high, low, close,
  volume`), `getLatestTimesForAllSymbols` and `persistOHLCVInBatches`;
* `src/loading/fetch-exchange-ohlcv.ts`: the per-symbol sync loop and the
  resume-time resolution;
* `src/server/cron-sync.ts`: the `syncing` re-entrancy flag of the cron
  trigger.

Embedding conventions:

* epoch-millisecond timestamps and JS numbers are modelled as exact
  integers (`Int`); the decimal-string price columns are modelled by the
  exact integer value they denote (the `toString` conversion of
  `parseOHLCVData` is the identity under this reading);
* `Math.ceil(a / b)` and `Math.floor(a / b)` on integer operands with a
  positive divisor are modelled with exact integer arithmetic: Lean's `/`
  on `Int` is Euclidean division, which is floor division for a positive
  divisor;
* network calls, the database and wall-clock reads are modelled as
  explicit oracle parameters (attempt outcomes, per-partition lookup
  tables, a `now` argument); `await` sequencing becomes ordinary
  sequential evaluation;
* thrown exceptions become `Except` error values; a `try`/`catch` that
  swallows the error becomes a total function returning what the source
  observably did before the catch ran.
-/

/-- One raw OHLCV candle as returned by `exchange.fetchOHLCV`:
`[timestamp, open, high, low, close, volume]` (`RawOHLCVData` in the
source). -/
structure RawCandle where
  ts : ℤ
  o : ℤ
  h : ℤ
  l : ℤ
  c : ℤ
  v : ℤ
  deriving DecidableEq, Repr

/-- A parsed/persisted row (`OHLCVDataItem` in `src/persistence/db.ts`).
The `open` column is called `open_` because `open` is a Lean keyword. -/
structure OHLCVDataItem where
  symbol : String
  open_time : ℤ
  open_ : ℤ
  high : ℤ
  low : ℤ
  close : ℤ
  volume : ℤ
  close_time : ℤ
  deriving DecidableEq, Repr

/-- `MarketType` from `src/loading/fetch-exchange-ohlcv.ts`:
`"spot" | "swap"`. -/
inductive MarketType where
  | spot
  | swap
  deriving DecidableEq, Repr

/-! ## Range planner (`fetchOHLCVData`, lines 72-101 of the unnamed file)

```
const maxLimit = initialData.length;
const timeframeInterval = initialData[1][0] - initialData[0][0];
totalLimit = Math.ceil((endTimestamp - initialData[0][0]) / timeframeInterval);
const numRequests = Math.ceil(totalLimit / maxLimit);
for (let i = 0; i < numRequests; i++)
  requests.push({ since: since + (i * maxLimit * timeframeInterval), ... });
```
-/

/-- `Math.ceil(a / b)` on integers, for a positive divisor `b`:
the negated floor division of the negation. -/
def jsCeilDiv (a b : ℤ) : ℤ := -((-a) / b)

/-- The ephemeral plan computed inside `fetchOHLCVData`: the total candle
count needed, the number of page requests, and each request's `since`. -/
structure FetchPlan where
  totalLimit : ℤ
  numRequests : ℤ
  requests : List ℤ
  deriving DecidableEq, Repr

/-- The planning block of `fetchOHLCVData` (lines 72-101): computes
`totalLimit`, `numRequests` and the request list from the probed page
size (`maxLimit`), probed interval, first probed candle time, the `since`
start and the target end timestamp (`toDate`, or `Date.now()` when
`toDate` is null). -/
def makeFetchPlan (since firstTs maxLimit timeframeInterval endTs : ℤ) : FetchPlan :=
  let totalLimit := jsCeilDiv (endTs - firstTs) timeframeInterval
  let numRequests := jsCeilDiv totalLimit maxLimit
  let requests := (List.range numRequests.toNat).map
    (fun i : ℕ => since + (i : ℤ) * maxLimit * timeframeInterval)
  ⟨totalLimit, numRequests, requests⟩

lemma jsCeilDiv_eq_ceil (a b : ℤ) (hb : 0 < b) :
    jsCeilDiv a b = ⌈(a : ℚ) / (b : ℚ)⌉ := by
  have hbq : ((b : ℚ)) ≠ 0 := by positivity
  rw [jsCeilDiv]
  have hfloor : ⌊((-a : ℤ) : ℚ) / ((b.toNat : ℕ) : ℚ)⌋ = (-a) / ((b.toNat : ℕ) : ℤ) :=
    Rat.floor_intCast_div_natCast (-a) b.toNat
  have hb' : ((b.toNat : ℕ) : ℤ) = b := Int.toNat_of_nonneg hb.le
  have hcast : ((b.toNat : ℕ) : ℚ) = (b : ℚ) := by
    exact_mod_cast congrArg (fun z : ℤ => (z : ℚ)) hb'
  rw [hb', hcast] at hfloor
  have : ⌈(a : ℚ) / (b : ℚ)⌉ = -⌊(-(a : ℚ)) / (b : ℚ)⌋ := by
    rw [neg_div, Int.floor_neg, neg_neg]
  rw [this, ← hfloor]
  push_cast
  ring_nf

lemma getD_map_range (n : ℕ) (f : ℕ → ℤ) (i : ℕ) (hi : i < n) :
    ((List.range n).map f).getD i 0 = f i := by
  rw [List.getD_eq_getElem?_getD, List.getElem?_map, List.getElem?_range hi]
  rfl

/-- Claim C4: for every probe result (page size, interval length,
first candle time) and target end time, the planner computes
`totalLimit = ceil((endTs - firstTs) / interval)`, emits exactly
`ceil(totalLimit / pageSize)` requests, request `i` starting at
`since + i * pageSize * interval`; in particular a probe of 500 candles
at 60000 ms spacing with target end `firstTs + 10000 * 60000` yields
`totalLimit = 10000` and 20 pages. -/
theorem planner_ceil_formula_and_request_starts
    (since firstTs maxLimit timeframeInterval endTs : ℤ)
    (hI : 0 < timeframeInterval) (hM : 0 < maxLimit) :
    (makeFetchPlan since firstTs maxLimit timeframeInterval endTs).totalLimit
        = ⌈((endTs - firstTs : ℤ) : ℚ) / (timeframeInterval : ℚ)⌉ ∧
    (makeFetchPlan since firstTs maxLimit timeframeInterval endTs).numRequests
        = ⌈(((makeFetchPlan since firstTs maxLimit timeframeInterval endTs).totalLimit : ℤ) : ℚ)
            / (maxLimit : ℚ)⌉ ∧
    (makeFetchPlan since firstTs maxLimit timeframeInterval endTs).requests.length
        = (makeFetchPlan since firstTs maxLimit timeframeInterval endTs).numRequests.toNat ∧
    (∀ i : ℕ,
      i < (makeFetchPlan since firstTs maxLimit timeframeInterval endTs).requests.length →
      (makeFetchPlan since firstTs maxLimit timeframeInterval endTs).requests.getD i 0
        = since + (i : ℤ) * maxLimit * timeframeInterval) ∧
    (makeFetchPlan since firstTs 500 60000 (firstTs + 10000 * 60000)).totalLimit = 10000 ∧
    (makeFetchPlan since firstTs 500 60000 (firstTs + 10000 * 60000)).numRequests = 20 := by
  refine ⟨?_, ?_, ?_, ?_, ?_, ?_⟩
  · simp only [makeFetchPlan]
    exact jsCeilDiv_eq_ceil _ _ hI
  · simp only [makeFetchPlan]
    exact jsCeilDiv_eq_ceil _ _ hM
  · simp only [makeFetchPlan, List.length_map, List.length_range]
  · intro i hi
    simp only [makeFetchPlan, List.length_map, List.length_range] at hi
    simp only [makeFetchPlan]
    exact getD_map_range _ _ i hi
  · simp only [makeFetchPlan, jsCeilDiv]
    ring_nf
  · simp only [makeFetchPlan, jsCeilDiv]
    ring_nf

/-- Witness for claim C4 at `since = 0`, `firstTs = 0`, page size 500,
interval 60000 and end timestamp `600000000`. -/
theorem planner_ceil_formula_and_request_starts_witness :
    (makeFetchPlan 0 0 500 60000 600000000).totalLimit
        = ⌈((600000000 - 0 : ℤ) : ℚ) / ((60000 : ℤ) : ℚ)⌉ ∧
    (makeFetchPlan 0 0 500 60000 600000000).numRequests
        = ⌈(((makeFetchPlan 0 0 500 60000 600000000).totalLimit : ℤ) : ℚ) / ((500 : ℤ) : ℚ)⌉ ∧
    (makeFetchPlan 0 0 500 60000 600000000).requests.length
        = (makeFetchPlan 0 0 500 60000 600000000).numRequests.toNat ∧
    (∀ i : ℕ, i < (makeFetchPlan 0 0 500 60000 600000000).requests.length →
      (makeFetchPlan 0 0 500 60000 600000000).requests.getD i 0
        = 0 + (i : ℤ) * 500 * 60000) ∧
    (makeFetchPlan 0 0 500 60000 (0 + 10000 * 60000)).totalLimit = 10000 ∧
    (makeFetchPlan 0 0 500 60000 (0 + 10000 * 60000)).numRequests = 20 :=
  planner_ceil_formula_and_request_starts 0 0 500 60000 600000000
    (by norm_num) (by norm_num)

/-! ## Merge / dedup / trim (`fetchOHLCVData`, lines 146-163)

```
for (const candle of allData)
  if (!seenTimestamps.has(candle[0])) { seenTimestamps.add(...); uniqueData.push(candle); }
uniqueData.sort((a, b) => a[0] - b[0]);
const finalData = uniqueData.slice(0, totalLimit);
```
-/

/-- The dedup loop of `fetchOHLCVData` (lines 148-157): keeps the first
candle seen for each timestamp; `seen` is the `seenTimestamps` set. -/
def dedupByTimestamp (seen : List ℤ) : List RawCandle → List RawCandle
  | [] => []
  | cd :: rest =>
    if cd.ts ∈ seen then dedupByTimestamp seen rest
    else cd :: dedupByTimestamp (cd.ts :: seen) rest

/-- The timestamp comparator `(a, b) => a[0] - b[0]` of
`uniqueData.sort`. -/
def tsLE (a b : RawCandle) : Prop := a.ts ≤ b.ts

instance : DecidableRel tsLE := fun a b => inferInstanceAs (Decidable (a.ts ≤ b.ts))

instance : IsTotal RawCandle tsLE := ⟨fun a b => le_total a.ts b.ts⟩

instance : IsTrans RawCandle tsLE := ⟨fun _ _ _ hab hbc => le_trans hab hbc⟩

/-- JS `Array.prototype.slice(0, endIdx)`: a negative `endIdx` counts from
the end of the array. -/
def jsSlice {α : Type} (endIdx : ℤ) (l : List α) : List α :=
  if 0 ≤ endIdx then l.take endIdx.toNat else l.take (l.length - (-endIdx).toNat)

/-- The aggregate-and-clean block of `fetchOHLCVData` (lines 146-163):
dedup by timestamp keeping the first occurrence, sort ascending by
timestamp (a stable sort, as JS `Array.sort`), trim with
`uniqueData.slice(0, totalLimit)`. -/
def aggregateData (totalLimit : ℤ) (allData : List RawCandle) : List RawCandle :=
  jsSlice totalLimit (List.insertionSort tsLE (dedupByTimestamp [] allData))

lemma dedup_first_occurrence :
    ∀ (l : List RawCandle) (seen : List ℤ) (cd : RawCandle),
      cd ∈ dedupByTimestamp seen l →
      cd.ts ∉ seen ∧ l.find? (fun x => x.ts == cd.ts) = some cd := by
  intro l
  induction l with
  | nil => intro seen cd hcd; simp [dedupByTimestamp] at hcd
  | cons hd tl ih =>
    intro seen cd hcd
    by_cases hmem : hd.ts ∈ seen
    · rw [show dedupByTimestamp seen (hd :: tl)
          = if hd.ts ∈ seen then dedupByTimestamp seen tl
            else hd :: dedupByTimestamp (hd.ts :: seen) tl from rfl,
        if_pos hmem] at hcd
      obtain ⟨hns, hfind⟩ := ih seen cd hcd
      refine ⟨hns, ?_⟩
      rw [List.find?_cons_of_neg, hfind]
      simp only [beq_iff_eq]
      intro h
      exact hns (h ▸ hmem)
    · rw [show dedupByTimestamp seen (hd :: tl)
          = if hd.ts ∈ seen then dedupByTimestamp seen tl
            else hd :: dedupByTimestamp (hd.ts :: seen) tl from rfl,
        if_neg hmem] at hcd
      rcases List.mem_cons.mp hcd with rfl | hcd'
      · refine ⟨hmem, ?_⟩
        rw [List.find?_cons_of_pos]
        simp
      · obtain ⟨hns, hfind⟩ := ih (hd.ts :: seen) cd hcd'
        have hne : cd.ts ≠ hd.ts := fun h => hns (by rw [h]; exact List.mem_cons_self _ _)
        refine ⟨fun h => hns (List.mem_cons_of_mem _ h), ?_⟩
        rw [List.find?_cons_of_neg, hfind]
        simp only [beq_iff_eq]
        exact fun h => hne h.symm

lemma dedup_ts_nodup :
    ∀ (l : List RawCandle) (seen : List ℤ),
      ((dedupByTimestamp seen l).map RawCandle.ts).Nodup := by
  intro l
  induction l with
  | nil => intro seen; simp [dedupByTimestamp]
  | cons hd tl ih =>
    intro seen
    by_cases hmem : hd.ts ∈ seen
    · simpa [dedupByTimestamp, hmem] using ih seen
    · rw [show dedupByTimestamp seen (hd :: tl)
          = if hd.ts ∈ seen then dedupByTimestamp seen tl
            else hd :: dedupByTimestamp (hd.ts :: seen) tl from rfl,
        if_neg hmem, List.map_cons, List.nodup_cons]
      refine ⟨?_, ih _⟩
      intro hin
      rcases List.mem_map.mp hin with ⟨cd, hcd, hts⟩
      obtain ⟨hns, _⟩ := dedup_first_occurrence tl (hd.ts :: seen) cd hcd
      exact hns (by rw [hts]; exact List.mem_cons_self _ _)

lemma pairwise_lt_of_sorted_nodup :
    ∀ l : List RawCandle, l.Pairwise tsLE → (l.map RawCandle.ts).Nodup →
      l.Pairwise (fun a b => a.ts < b.ts) := by
  intro l
  induction l with
  | nil => intro _ _; exact List.Pairwise.nil
  | cons hd tl ih =>
    intro hp hn
    rw [List.pairwise_cons] at hp ⊢
    rw [List.map_cons, List.nodup_cons] at hn
    refine ⟨fun b hb => lt_of_le_of_ne (hp.1 b hb) ?_, ih hp.2 hn.2⟩
    intro heq
    exact hn.1 (by rw [heq]; exact List.mem_map_of_mem RawCandle.ts hb)

/-- First scenario page for claim C5: candles at timestamps 0..10 with
value 1 in every price column. -/
def scenarioPage1 : List RawCandle :=
  (List.range 11).map (fun i : ℕ => ⟨(i : ℤ), 1, 1, 1, 1, 1⟩)

/-- Second scenario page for claim C5: candles at timestamps 1..11 with
value 2 in every price column; it overlaps the first page in the ten
timestamps 1..10. -/
def scenarioPage2 : List RawCandle :=
  (List.range 11).map (fun i : ℕ => ⟨(i : ℤ) + 1, 2, 2, 2, 2, 2⟩)

/-- Claim C5: the merged output is strictly sorted ascending by
timestamp (hence duplicate-free), trimmed to at most `totalLimit`
entries, and every output candle is the first-seen occurrence of its
timestamp in the input; merging two pages of 11 candles overlapping in 10
timestamps yields 11 + 11 - 10 = 12 candles with first-seen values. -/
theorem merge_sorted_dedup_trim_first_seen (totalLimit : ℤ)
    (allData : List RawCandle) (hT : 0 ≤ totalLimit) :
    (aggregateData totalLimit allData).Pairwise (fun a b => a.ts < b.ts) ∧
    (aggregateData totalLimit allData).length ≤ totalLimit.toNat ∧
    (∀ cd ∈ aggregateData totalLimit allData,
      allData.find? (fun x => x.ts == cd.ts) = some cd) ∧
    aggregateData 100 (scenarioPage1 ++ scenarioPage2)
      = scenarioPage1 ++ [⟨11, 2, 2, 2, 2, 2⟩] ∧
    (aggregateData 100 (scenarioPage1 ++ scenarioPage2)).length
      = scenarioPage1.length + scenarioPage2.length - 10 := by
  have hsort : (List.insertionSort tsLE (dedupByTimestamp [] allData)).Pairwise
      (fun a b => a.ts < b.ts) := by
    refine pairwise_lt_of_sorted_nodup _ (List.sorted_insertionSort tsLE _) ?_
    exact (((List.perm_insertionSort tsLE
        (dedupByTimestamp [] allData)).map RawCandle.ts).nodup_iff).mpr
      (dedup_ts_nodup allData [])
  constructor
  · rw [aggregateData, jsSlice, if_pos hT]
    exact hsort.sublist (List.take_sublist _ _)
  refine ⟨?_, ?_, ?_, ?_⟩
  · rw [aggregateData, jsSlice, if_pos hT]
    exact List.length_take_le _ _
  · intro cd hcd
    rw [aggregateData, jsSlice, if_pos hT] at hcd
    have h1 : cd ∈ List.insertionSort tsLE (dedupByTimestamp [] allData) :=
      List.mem_of_mem_take hcd
    have h2 : cd ∈ dedupByTimestamp [] allData :=
      (List.mem_insertionSort tsLE).mp h1
    exact (dedup_first_occurrence allData [] cd h2).2
  · decide
  · decide

/-- Witness for claim C5 at `totalLimit = 100` on the two overlapping
scenario pages. -/
theorem merge_sorted_dedup_trim_first_seen_witness :
    (aggregateData 100 (scenarioPage1 ++ scenarioPage2)).Pairwise
        (fun a b => a.ts < b.ts) ∧
    (aggregateData 100 (scenarioPage1 ++ scenarioPage2)).length ≤ (100 : ℤ).toNat ∧
    (∀ cd ∈ aggregateData 100 (scenarioPage1 ++ scenarioPage2),
      (scenarioPage1 ++ scenarioPage2).find? (fun x => x.ts == cd.ts) = some cd) ∧
    aggregateData 100 (scenarioPage1 ++ scenarioPage2)
      = scenarioPage1 ++ [⟨11, 2, 2, 2, 2, 2⟩] ∧
    (aggregateData 100 (scenarioPage1 ++ scenarioPage2)).length
      = scenarioPage1.length + scenarioPage2.length - 10 :=
  merge_sorted_dedup_trim_first_seen 100 (scenarioPage1 ++ scenarioPage2)
    (by norm_num)

/-! ## Gap counter (`fetchOHLCVData`, lines 165-181)

```
for (let i = 1; i < finalData.length; i++) {
  const actualInterval = finalData[i][0] - finalData[i - 1][0];
  if (actualInterval !== expectedInterval)
    missingCandles += Math.floor(actualInterval / expectedInterval) - 1;
}
```
The warning it prints is non-fatal: the function returns `finalData`
regardless of the count. -/
def countMissingCandles (timeframeInterval : ℤ) : List RawCandle → ℤ
  | c1 :: c2 :: rest =>
    (if c2.ts - c1.ts ≠ timeframeInterval
      then (c2.ts - c1.ts) / timeframeInterval - 1 else 0)
      + countMissingCandles timeframeInterval (c2 :: rest)
  | _ => 0

/-- A synthetic candle sequence whose successive timestamps differ by
`(g + 1) * interval` for the entries `g` of `gaps`: it has exactly
`gaps.sum` whole missing intervals. -/
def gapSeq (interval : ℤ) (start : ℤ) : List ℕ → List RawCandle
  | [] => [⟨start, 0, 0, 0, 0, 0⟩]
  | g :: gs => ⟨start, 0, 0, 0, 0, 0⟩ :: gapSeq interval (start + ((g : ℤ) + 1) * interval) gs

lemma gapSeq_cons (interval start : ℤ) (gs : List ℕ) :
    ∃ tl, gapSeq interval start gs = (⟨start, 0, 0, 0, 0, 0⟩ : RawCandle) :: tl := by
  cases gs with
  | nil => exact ⟨[], rfl⟩
  | cons g gs' => exact ⟨_, rfl⟩

lemma countMissing_eq_zip_sum (interval : ℤ) :
    ∀ l : List RawCandle,
      countMissingCandles interval l
        = ((l.zip l.tail).map (fun p =>
            if p.2.ts - p.1.ts ≠ interval
            then (p.2.ts - p.1.ts) / interval - 1 else 0)).sum := by
  intro l
  induction l with
  | nil => simp [countMissingCandles]
  | cons c1 rest ih =>
    cases rest with
    | nil => simp [countMissingCandles]
    | cons c2 rest' =>
      rw [show countMissingCandles interval (c1 :: c2 :: rest')
            = (if c2.ts - c1.ts ≠ interval
                then (c2.ts - c1.ts) / interval - 1 else 0)
              + countMissingCandles interval (c2 :: rest') from rfl, ih]
      simp [List.zip, List.zipWith]

/-- Claim C8: the gap checker accumulates
`floor(delta / interval) - 1` over every adjacent pair whose delta is not
exactly one interval (first conjunct, as a sum over adjacent pairs), and
on a sequence with exactly `k` whole missing intervals the counter equals
`k` (second conjunct). -/
theorem gap_counter_sums_missing_intervals (interval : ℤ) (hI : 0 < interval) :
    (∀ l : List RawCandle,
      countMissingCandles interval l
        = ((l.zip l.tail).map (fun p =>
            if p.2.ts - p.1.ts ≠ interval
            then (p.2.ts - p.1.ts) / interval - 1 else 0)).sum) ∧
    (∀ (start : ℤ) (gaps : List ℕ),
      countMissingCandles interval (gapSeq interval start gaps)
        = ((gaps.map (fun g : ℕ => (g : ℤ))).sum)) := by
  refine ⟨countMissing_eq_zip_sum interval, ?_⟩
  intro start gaps
  induction gaps generalizing start with
  | nil => simp [gapSeq, countMissingCandles]
  | cons g gs ih =>
    obtain ⟨tl, htl⟩ := gapSeq_cons interval (start + ((g : ℤ) + 1) * interval) gs
    rw [show gapSeq interval start (g :: gs)
          = (⟨start, 0, 0, 0, 0, 0⟩ : RawCandle)
            :: gapSeq interval (start + ((g : ℤ) + 1) * interval) gs from rfl]
    rw [htl]
    rw [show countMissingCandles interval
          ((⟨start, 0, 0, 0, 0, 0⟩ : RawCandle)
            :: (⟨start + ((g : ℤ) + 1) * interval, 0, 0, 0, 0, 0⟩ : RawCandle) :: tl)
          = (if (start + ((g : ℤ) + 1) * interval) - start ≠ interval
              then ((start + ((g : ℤ) + 1) * interval) - start) / interval - 1 else 0)
            + countMissingCandles interval
                ((⟨start + ((g : ℤ) + 1) * interval, 0, 0, 0, 0, 0⟩ : RawCandle) :: tl)
          from rfl]
    rw [← htl, ih]
    have hdelta : (start + ((g : ℤ) + 1) * interval) - start = ((g : ℤ) + 1) * interval := by
      ring
    have hcontrib : (if (start + ((g : ℤ) + 1) * interval) - start ≠ interval
        then ((start + ((g : ℤ) + 1) * interval) - start) / interval - 1 else 0) = (g : ℤ) := by
      rw [hdelta]
      by_cases hg : (g : ℤ) = 0
      · rw [hg]
        simp
      · have hne : ((g : ℤ) + 1) * interval ≠ interval := by
          intro h
          have : (g : ℤ) * interval = 0 := by linarith [h]
          rcases mul_eq_zero.mp this with h0 | h0
          · exact hg h0
          · exact hI.ne' h0
        rw [if_pos hne, Int.mul_ediv_cancel _ hI.ne']
        ring
    rw [hcontrib]
    simp [List.sum_cons]

/-- Witness for claim C8 at interval 60000 on a synthetic sequence with
2 + 0 + 3 = 5 whole missing intervals. -/
theorem gap_counter_sums_missing_intervals_witness :
    countMissingCandles 60000 (gapSeq 60000 0 [2, 0, 3])
      = (([2, 0, 3] : List ℕ).map (fun g : ℕ => (g : ℤ))).sum :=
  (gap_counter_sums_missing_intervals 60000 (by norm_num)).2 0 [2, 0, 3]

/-! ## Paged fetcher with rate-limit retry (`fetchOHLCVData`, lines 104-142)

```
let retryCount = 0; const maxRetries = 3;
while (retryCount < maxRetries) {
  try { ...fetchOHLCV...; break; }
  catch (error) {
    if (error.toString().includes('rate limit') || error.toString().includes('429')) {
      await sleep(60000); retryCount++;
    } else { throw error; }
  }
}
if (retryCount >= maxRetries) throw new Error(`Failed ... due to rate limiting`);
```
-/

/-- Outcome of one `exchange.fetchOHLCV` attempt: candles, an error whose
text matches the rate-limit check, or any other error (its `toString`
text). -/
inductive FetchOutcome where
  | success (data : List RawCandle)
  | rateLimited
  | failure (cause : String)
  deriving DecidableEq, Repr

/-- How one page request can fail: the retry ceiling was exhausted by
rate limiting, or a non-rate-limit upstream error was rethrown with its
cause preserved. -/
inductive FetchErr where
  | rateLimitExhausted
  | upstream (cause : String)
  deriving DecidableEq, Repr

/-- The per-request retry loop of `fetchOHLCVData` (lines 104-142), with
the attempt outcomes supplied by the oracle `att` (attempt number to
outcome) and the cumulative back-off sleep tracked in `waitedMs`:
rate-limited attempts sleep 60000 ms and increment `retryCount`; any other
error is rethrown at once; leaving the loop with
`retryCount >= maxRetries` throws the rate-limit-exhausted error. -/
def fetchChunkWithRetry (att : ℕ → FetchOutcome) (maxRetries : ℕ)
    (retryCount : ℕ) (waitedMs : ℤ) : Except FetchErr (List RawCandle × ℤ) :=
  if _h : retryCount < maxRetries then
    match att retryCount with
    | .success d => .ok (d, waitedMs)
    | .rateLimited => fetchChunkWithRetry att maxRetries (retryCount + 1) (waitedMs + 60000)
    | .failure cause => .error (.upstream cause)
  else .error .rateLimitExhausted
termination_by maxRetries - retryCount
decreasing_by omega

lemma fetchChunkWithRetry_rateSkip (att : ℕ → FetchOutcome) (maxRetries : ℕ) :
    ∀ (j rc : ℕ) (w : ℤ), (∀ k, k < j → att (rc + k) = .rateLimited) →
      rc + j ≤ maxRetries →
      fetchChunkWithRetry att maxRetries rc w
        = fetchChunkWithRetry att maxRetries (rc + j) (w + (j : ℤ) * 60000) := by
  intro j
  induction j with
  | zero => intro rc w _ _; simp
  | succ n ih =>
    intro rc w hrl hle
    have h0 : att rc = .rateLimited := by simpa using hrl 0 (Nat.succ_pos n)
    have hrc : rc < maxRetries := by omega
    rw [fetchChunkWithRetry, dif_pos hrc, h0]
    have hrl' : ∀ k, k < n → att (rc + 1 + k) = .rateLimited := by
      intro k hk
      have := hrl (k + 1) (by omega)
      rwa [show rc + (k + 1) = rc + 1 + k by omega] at this
    push_cast
    rw [show rc + (n + 1) = rc + 1 + n by omega,
      show w + ((n : ℤ) + 1) * 60000 = w + 60000 + (n : ℤ) * 60000 by ring]
    exact ih (rc + 1) (w + 60000) hrl' (by omega)

/-- Claim C6: after `j` rate-limited attempts (each sleeping 60000 ms), a
successful attempt `j` (zero-based, so spec attempt `j + 1`) within the
ceiling of 3 returns that attempt's candles with `j` back-off waits; a
non-rate-limit failure on attempt `j` fails the run at once with the
cause preserved; three rate-limited attempts exhaust the ceiling and fail
the run with the rate-limit-exhausted error. -/
theorem rate_limit_retry_policy (att : ℕ → FetchOutcome) (j : ℕ)
    (d : List RawCandle) (cause : String) :
    ((∀ k, k < j → att k = .rateLimited) → j < 3 → att j = .success d →
      fetchChunkWithRetry att 3 0 0 = .ok (d, (j : ℤ) * 60000)) ∧
    ((∀ k, k < j → att k = .rateLimited) → j < 3 → att j = .failure cause →
      fetchChunkWithRetry att 3 0 0 = .error (.upstream cause)) ∧
    ((∀ k, k < 3 → att k = .rateLimited) →
      fetchChunkWithRetry att 3 0 0 = .error .rateLimitExhausted) := by
  refine ⟨?_, ?_, ?_⟩
  · intro hrl hj hsucc
    rw [fetchChunkWithRetry_rateSkip att 3 j 0 0 (by simpa using hrl) (by omega)]
    rw [fetchChunkWithRetry, dif_pos (by omega : 0 + j < 3)]
    simp only [Nat.zero_add] at hsucc ⊢
    rw [hsucc]
    norm_num
  · intro hrl hj hfail
    rw [fetchChunkWithRetry_rateSkip att 3 j 0 0 (by simpa using hrl) (by omega)]
    rw [fetchChunkWithRetry, dif_pos (by omega : 0 + j < 3)]
    simp only [Nat.zero_add] at hfail ⊢
    rw [hfail]
  · intro hrl
    rw [fetchChunkWithRetry_rateSkip att 3 3 0 0 (by simpa using hrl) (by omega)]
    rw [fetchChunkWithRetry, dif_neg (by omega)]

/-- Attempt oracle for the claim C6 scenario: rate-limited on the first
two attempts, success on the third. -/
def scenarioAttempts : ℕ → FetchOutcome := fun k =>
  if k < 2 then .rateLimited else .success [⟨0, 1, 1, 1, 1, 1⟩]

/-- Witness for claim C6: under `scenarioAttempts` the fetch succeeds
with the third attempt's candles after two 60-second back-off waits. -/
theorem rate_limit_retry_policy_witness :
    fetchChunkWithRetry scenarioAttempts 3 0 0
      = .ok ([⟨0, 1, 1, 1, 1, 1⟩], (2 : ℤ) * 60000) :=
  (rate_limit_retry_policy scenarioAttempts 2 [⟨0, 1, 1, 1, 1, 1⟩] "x").1
    (by decide) (by norm_num) (by decide)

/-! ## Parsing (`src/parsing/ohlcv.ts`) -/

/-- The row built for one raw candle by the map inside `parseOHLCVData`
(lines 10-23): `close_time = timestamp + 60000` and the numeric values
carried over (their `toString` is the identity in this embedding). -/
def parseCandle (symbol : String) (cd : RawCandle) : OHLCVDataItem :=
  ⟨symbol, cd.ts, cd.o, cd.h, cd.l, cd.c, cd.v, cd.ts + 60000⟩

/-- `filterCompleteCandles` (lines 41-48): keeps only candles whose
`close_time` is at most `now` (the `Date.now()` read, passed
explicitly). -/
def filterCompleteCandles (now : ℤ) (data : List OHLCVDataItem) : List OHLCVDataItem :=
  data.filter (fun item => item.close_time ≤ now)

/-- `parseOHLCVData` (lines 5-27): maps raw candles to rows and, when
`excludeIncomplete` is set (its default, and the pipeline call at
fetch-exchange-ohlcv.ts:112 uses the default), filters out candles that
have not yet closed. -/
def parseOHLCVData (ohlcvData : List RawCandle) (symbol : String)
    (excludeIncomplete : Bool) (now : ℤ) : List OHLCVDataItem :=
  let parsedData := ohlcvData.map (parseCandle symbol)
  if excludeIncomplete then filterCompleteCandles now parsedData else parsedData

/-- The first-seen filter of `deduplicateOHLCVData` (lines 29-39), keyed
by the template string `symbol-close_time`; `seen` is the `seen` set. -/
def dedupOHLCVGo (seen : List (String × ℤ)) : List OHLCVDataItem → List OHLCVDataItem
  | [] => []
  | item :: rest =>
    if (item.symbol, item.close_time) ∈ seen then dedupOHLCVGo seen rest
    else item :: dedupOHLCVGo ((item.symbol, item.close_time) :: seen) rest

/-- `deduplicateOHLCVData` (lines 29-39). -/
def deduplicateOHLCVData (data : List OHLCVDataItem) : List OHLCVDataItem :=
  dedupOHLCVGo [] data

/-- Claim C10: with the pipeline's default flags, every parsed row has
`close_time = open_time + 60000`, no row with `close_time > now` survives
the filter, surviving rows keep the input order (the output is a sublist
of the mapped input), every closed candle is kept, and every still-open
candle is excluded. -/
theorem parse_assigns_close_time_and_drops_open_candles
    (raw : List RawCandle) (symbol : String) (now : ℤ) :
    (∀ item ∈ parseOHLCVData raw symbol true now,
      item.close_time = item.open_time + 60000 ∧ item.close_time ≤ now) ∧
    (parseOHLCVData raw symbol true now).Sublist (raw.map (parseCandle symbol)) ∧
    (∀ cd ∈ raw, cd.ts + 60000 ≤ now →
      parseCandle symbol cd ∈ parseOHLCVData raw symbol true now) ∧
    (∀ cd ∈ raw, now < cd.ts + 60000 →
      parseCandle symbol cd ∉ parseOHLCVData raw symbol true now) := by
  refine ⟨?_, ?_, ?_, ?_⟩
  · intro item hitem
    simp only [parseOHLCVData, if_pos, filterCompleteCandles, List.mem_filter,
      decide_eq_true_eq] at hitem
    obtain ⟨hmap, hle⟩ := hitem
    rcases List.mem_map.mp hmap with ⟨cd, _, rfl⟩
    exact ⟨rfl, hle⟩
  · simp only [parseOHLCVData, if_pos, filterCompleteCandles]
    exact List.filter_sublist _
  · intro cd hcd hle
    simp only [parseOHLCVData, if_pos, filterCompleteCandles, List.mem_filter,
      decide_eq_true_eq]
    exact ⟨List.mem_map_of_mem _ hcd, hle⟩
  · intro cd _ hgt hmem
    simp only [parseOHLCVData, if_pos, filterCompleteCandles, List.mem_filter,
      decide_eq_true_eq] at hmem
    have : cd.ts + 60000 ≤ now := hmem.2
    omega

/-- Witness for claim C10: with `now = 60000`, the candle opening at 0 is
kept and the candle opening at 60000 (still open at `now`) is
excluded. -/
theorem parse_assigns_close_time_and_drops_open_candles_witness :
    parseCandle "BTC" ⟨0, 1, 1, 1, 1, 1⟩
      ∈ parseOHLCVData [⟨0, 1, 1, 1, 1, 1⟩, ⟨60000, 2, 2, 2, 2, 2⟩] "BTC" true 60000 ∧
    parseCandle "BTC" ⟨60000, 2, 2, 2, 2, 2⟩
      ∉ parseOHLCVData [⟨0, 1, 1, 1, 1, 1⟩, ⟨60000, 2, 2, 2, 2, 2⟩] "BTC" true 60000 :=
  ⟨(parse_assigns_close_time_and_drops_open_candles
      [⟨0, 1, 1, 1, 1, 1⟩, ⟨60000, 2, 2, 2, 2, 2⟩] "BTC" 60000).2.2.1
      ⟨0, 1, 1, 1, 1, 1⟩ (by decide) (by decide),
   (parse_assigns_close_time_and_drops_open_candles
      [⟨0, 1, 1, 1, 1, 1⟩, ⟨60000, 2, 2, 2, 2, 2⟩] "BTC" 60000).2.2.2
      ⟨60000, 2, 2, 2, 2, 2⟩ (by decide) (by decide)⟩

/-! ## Keyed upsert (`src/persistence/db.ts`, `persistToPostgres`, lines 84-137)

```
INSERT INTO <table>(symbol, open_time, open, high, low, close, volume, close_time)
VALUES ...
ON CONFLICT (symbol, open_time)
DO UPDATE SET open = excluded.open, high = excluded.high,
  low = excluded.low, close = excluded.close, volume = excluded.volume
```
Note that `close_time` is absent from the `DO UPDATE SET` list. -/

/-- The primary key `(symbol, open_time)` of the `ON CONFLICT` clause. -/
def rowKey (r : OHLCVDataItem) : String × ℤ := (r.symbol, r.open_time)

/-- Table lookup by primary key (the table state is the row list). -/
def lookupRow (table : List OHLCVDataItem) (k : String × ℤ) : Option OHLCVDataItem :=
  table.find? (fun q => rowKey q == k)

/-- The conflict resolution of the `DO UPDATE SET` list applied to the
existing row `q` and the excluded (incoming) row `r`: `open`, `high`,
`low`, `close` and `volume` are overwritten; `symbol`, `open_time` and
`close_time` are not in the list. -/
def mergeRow (q r : OHLCVDataItem) : OHLCVDataItem :=
  { q with open_ := r.open_, high := r.high, low := r.low,
           close := r.close, volume := r.volume }

/-- One row of the insert: on a key conflict the `DO UPDATE SET` list is
applied to the existing row, otherwise the row is appended. -/
def upsertRow (table : List OHLCVDataItem) (r : OHLCVDataItem) : List OHLCVDataItem :=
  if table.any (fun q => rowKey q == rowKey r) then
    table.map (fun q => if rowKey q == rowKey r then mergeRow q r else q)
  else table ++ [r]

/-- `persistToPostgres` (lines 84-137): the multi-row `INSERT` statement
behaves as the row-by-row upsert in statement order. -/
def persistToPostgres (table : List OHLCVDataItem) (data : List OHLCVDataItem) :
    List OHLCVDataItem :=
  data.foldl upsertRow table

lemma rowKey_mergeRow (q r : OHLCVDataItem) : rowKey (mergeRow q r) = rowKey q := rfl

lemma lookupRow_map_merge (table : List OHLCVDataItem) (r : OHLCVDataItem)
    (k : String × ℤ) :
    lookupRow (table.map (fun q => if rowKey q == rowKey r then mergeRow q r else q)) k
      = Option.map (fun q => if rowKey q == rowKey r then mergeRow q r else q)
          (lookupRow table k) := by
  rw [lookupRow, lookupRow, List.find?_map]
  have hp : ((fun q => rowKey q == k)
        ∘ fun q => if rowKey q == rowKey r then mergeRow q r else q)
      = (fun q => rowKey q == k) := by
    funext q
    by_cases hq : (rowKey q == rowKey r) = true
    · simp only [Function.comp_apply, if_pos hq, rowKey_mergeRow]
    · simp only [Function.comp_apply, if_neg hq]
  rw [hp]

/-- Counterexample to claim C3 as stated: upserting a conflicting row
whose `close_time` differs does not overwrite `close_time`, so the
stored row is not the incoming row even though their keys agree. -/
theorem upsert_does_not_overwrite_close_time :
    lookupRow (upsertRow [⟨"BTC", 0, 1, 1, 1, 1, 1, 60000⟩]
        ⟨"BTC", 0, 2, 2, 2, 2, 2, 999⟩) ("BTC", 0)
      = some ⟨"BTC", 0, 2, 2, 2, 2, 2, 60000⟩ ∧
    ¬ (lookupRow (upsertRow [⟨"BTC", 0, 1, 1, 1, 1, 1, 60000⟩]
        ⟨"BTC", 0, 2, 2, 2, 2, 2, 999⟩) ("BTC", 0)
      = some ⟨"BTC", 0, 2, 2, 2, 2, 2, 999⟩) := by
  constructor
  · decide
  · decide

/-- Claim C3, amended: on a primary-key conflict the upsert overwrites
the value columns `open`, `high`, `low`, `close` and `volume` with the
incoming values, leaves the key columns and `close_time` unchanged
(`close_time` is absent from the `DO UPDATE SET` list), and leaves every
other key's row untouched. -/
theorem upsert_overwrites_listed_values_keeps_key_and_close_time
    (table : List OHLCVDataItem) (r old : OHLCVDataItem)
    (hold : lookupRow table (rowKey r) = some old) :
    lookupRow (upsertRow table r) (rowKey r) = some (mergeRow old r) ∧
    (mergeRow old r).symbol = old.symbol ∧
    (mergeRow old r).open_time = old.open_time ∧
    (mergeRow old r).close_time = old.close_time ∧
    (mergeRow old r).open_ = r.open_ ∧
    (mergeRow old r).high = r.high ∧
    (mergeRow old r).low = r.low ∧
    (mergeRow old r).close = r.close ∧
    (mergeRow old r).volume = r.volume ∧
    (∀ k, k ≠ rowKey r → lookupRow (upsertRow table r) k = lookupRow table k) := by
  have h1 : table.find? (fun q => rowKey q == rowKey r) = some old := hold
  have hpold : (rowKey old == rowKey r) = true := by
    simpa using List.find?_some h1
  have hconf : table.any (fun q => rowKey q == rowKey r) = true := by
    rw [List.any_eq_true]
    exact ⟨old, List.mem_of_find?_eq_some h1, hpold⟩
  refine ⟨?_, rfl, rfl, rfl, rfl, rfl, rfl, rfl, rfl, ?_⟩
  · rw [upsertRow, if_pos hconf, lookupRow_map_merge, hold]
    show some (if rowKey old == rowKey r then mergeRow old r else old)
      = some (mergeRow old r)
    rw [if_pos hpold]
  · intro k hk
    rw [upsertRow, if_pos hconf, lookupRow_map_merge]
    cases hfind : lookupRow table k with
    | none => rfl
    | some q =>
      have h1 : table.find? (fun x => rowKey x == k) = some q := hfind
      have hqk : rowKey q = k := by
        have h2 := List.find?_some h1
        simpa [beq_iff_eq] using h2
      show some (if rowKey q == rowKey r then mergeRow q r else q) = some q
      rw [if_neg (by simp only [beq_iff_eq, hqk]; exact hk)]

/-- Witness for the amended claim C3 on a one-row table and a
conflicting incoming row. -/
theorem upsert_overwrites_listed_values_witness :
    lookupRow (upsertRow [⟨"BTC", 0, 1, 1, 1, 1, 1, 60000⟩]
        ⟨"BTC", 0, 2, 2, 2, 2, 2, 999⟩) (rowKey ⟨"BTC", 0, 2, 2, 2, 2, 2, 999⟩)
      = some (mergeRow ⟨"BTC", 0, 1, 1, 1, 1, 1, 60000⟩ ⟨"BTC", 0, 2, 2, 2, 2, 2, 999⟩) ∧
    (mergeRow ⟨"BTC", 0, 1, 1, 1, 1, 1, 60000⟩ ⟨"BTC", 0, 2, 2, 2, 2, 2, 999⟩).symbol = "BTC" ∧
    (mergeRow ⟨"BTC", 0, 1, 1, 1, 1, 1, 60000⟩ ⟨"BTC", 0, 2, 2, 2, 2, 2, 999⟩).open_time = 0 ∧
    (mergeRow ⟨"BTC", 0, 1, 1, 1, 1, 1, 60000⟩ ⟨"BTC", 0, 2, 2, 2, 2, 2, 999⟩).close_time = 60000 ∧
    (mergeRow ⟨"BTC", 0, 1, 1, 1, 1, 1, 60000⟩ ⟨"BTC", 0, 2, 2, 2, 2, 2, 999⟩).open_ = 2 := by
  have h := upsert_overwrites_listed_values_keeps_key_and_close_time
    [⟨"BTC", 0, 1, 1, 1, 1, 1, 60000⟩] ⟨"BTC", 0, 2, 2, 2, 2, 2, 999⟩
    ⟨"BTC", 0, 1, 1, 1, 1, 1, 60000⟩ (by decide)
  exact ⟨h.1, h.2.1, h.2.2.1, h.2.2.2.1, h.2.2.2.2.1⟩

/-! ## Resume-time resolution (`fetchExchangeOHLCV`, lines 96-110)

```
const latestSpotSymbolsTime = await getLatestTimesForAllSymbols(symbols, exchangeName, 'swap')
const latestPerpSymbolsTime = await getLatestTimesForAllSymbols(symbols, exchangeName, 'spot')
...
const latestTime = type === 'spot' ? latestSpotSymbolsTime.get(symbol)
                                   : latestPerpSymbolsTime.get(symbol)
const from = latestTime != null
  ? formatUnixDatetimeForCCXT(latestTime)
  : formatUnixDatetimeForCCXT(Date.now() - env.HISTORICAL_DATA_TO_KEEP_MS)
```

The database is abstracted as `db : MarketType -> symbol -> Option close_time`:
the latest persisted `close_time` of a symbol in the
`<exchange>_<marketType>_ohlcv` partition, `none` when that partition has no
rows for the symbol (including the table-missing catch of
`getLatestTimesForAllSymbols`, which returns an empty map). The ISO-string
round trip through `formatUnixDatetimeForCCXT` and `dateToTimestamp` is the
identity on epoch milliseconds. -/
def resolveStartTime (db : MarketType → String → Option ℤ) (symbol : String)
    (type : MarketType) (now lookbackMs : ℤ) : ℤ :=
  let latestSpotSymbolsTime := fun s => db MarketType.swap s
  let latestPerpSymbolsTime := fun s => db MarketType.spot s
  let latestTime := if type = MarketType.spot then latestSpotSymbolsTime symbol
    else latestPerpSymbolsTime symbol
  match latestTime with
  | some t => t
  | none => now - lookbackMs

/-- Claim C2 fails on the code: line 96 loads the `swap` partition into
`latestSpotSymbolsTime` and line 97 the `spot` partition into
`latestPerpSymbolsTime`, so a spot symbol resumes from the swap
partition. With the symbol's own (spot) partition holding latest
`close_time` 1000 and the swap partition empty, `now = 5000` and
lookback 2000, the resolved start is `now - lookback = 3000`, not
`T = 1000` as the claim requires. -/
theorem resume_reads_opposite_partition :
    (fun mt s => if mt = MarketType.spot ∧ s = "BTC" then some (1000 : ℤ) else none)
        MarketType.spot "BTC" = some 1000 ∧
    resolveStartTime
        (fun mt s => if mt = MarketType.spot ∧ s = "BTC" then some (1000 : ℤ) else none)
        "BTC" MarketType.spot 5000 2000 = 3000 ∧
    resolveStartTime
        (fun mt s => if mt = MarketType.spot ∧ s = "BTC" then some (1000 : ℤ) else none)
        "BTC" MarketType.spot 5000 2000 ≠ 1000 := by
  refine ⟨?_, ?_, ?_⟩
  · decide
  · decide
  · decide

/-! ## Per-symbol sync loop (`fetchExchangeOHLCV`, lines 80-127)

The whole `for` loop over symbols sits inside one `try` block; the `catch`
(line 119) only logs. The per-symbol pipeline body (fetch, parse, persist)
is abstracted as an oracle `outcome` from the symbol to its result; its
internals are modelled separately by the planner, fetcher, parser and
writer definitions above. -/

/-- The symbol `for` loop (lines 99-117): processes symbols in order,
collecting the symbols whose pipeline ran; the first thrown error leaves
the loop (to the cycle-level catch). Returns the attempted symbols and
the escaped error, if any. -/
def runSymbolLoop (outcome : String → Except FetchErr Unit) :
    List String → List String × Option FetchErr
  | [] => ([], none)
  | s :: rest =>
    match outcome s with
    | .ok _ =>
      let p := runSymbolLoop outcome rest
      (s :: p.1, p.2)
    | .error e => ([s], some e)

/-- `fetchExchangeOHLCV` (lines 57-127): the loop runs under a single
`try` whose `catch` only logs, so the call returns normally with the
symbols attempted before the loop was left. -/
def fetchExchangeOHLCV (outcome : String → Except FetchErr Unit)
    (symbols : List String) : List String :=
  (runSymbolLoop outcome symbols).1

/-- Whether the per-symbol pipeline completed without throwing. -/
def outcomeOk (outcome : String → Except FetchErr Unit) (s : String) : Bool :=
  match outcome s with
  | .ok _ => true
  | .error _ => false

/-- Counterexample to claim C1: with the pipeline failing fatally on
symbol A (here with the rate-limit-exhausted error) and succeeding on
symbol B, the cycle attempts A but never runs the pipeline for the
subsequent symbol B. -/
theorem symbol_failure_blocks_subsequent_symbol :
    "A" ∈ fetchExchangeOHLCV
        (fun s => if s = "A" then .error .rateLimitExhausted else .ok ()) ["A", "B"] ∧
    "B" ∉ fetchExchangeOHLCV
        (fun s => if s = "A" then .error .rateLimitExhausted else .ok ()) ["A", "B"] := by
  constructor
  · decide
  · decide

/-- Claim C1, amended: one symbol's fatal failure aborts the sync of all
subsequent symbols in the same cycle — the attempted-symbol list is the
longest prefix of symbols whose pipeline succeeds, plus the first failing
symbol if any; the error itself is caught at cycle level, so the cycle
returns normally. -/
theorem symbol_loop_stops_at_first_failure
    (outcome : String → Except FetchErr Unit) (symbols : List String) :
    fetchExchangeOHLCV outcome symbols
      = symbols.takeWhile (outcomeOk outcome)
        ++ (symbols.dropWhile (outcomeOk outcome)).take 1 := by
  induction symbols with
  | nil => rfl
  | cons s rest ih =>
    cases houtcome : outcome s with
    | ok u =>
      have hok : outcomeOk outcome s = true := by
        simp [outcomeOk, houtcome]
      rw [show fetchExchangeOHLCV outcome (s :: rest)
            = s :: fetchExchangeOHLCV outcome rest by
          simp only [fetchExchangeOHLCV, runSymbolLoop, houtcome]]
      rw [List.takeWhile_cons, List.dropWhile_cons]
      rw [if_pos hok, if_pos hok]
      rw [ih]
      rfl
    | error e =>
      have hok : outcomeOk outcome s = false := by
        simp [outcomeOk, houtcome]
      rw [show fetchExchangeOHLCV outcome (s :: rest) = [s] by
          simp only [fetchExchangeOHLCV, runSymbolLoop, houtcome]]
      rw [List.takeWhile_cons, List.dropWhile_cons]
      rw [if_neg (by simp [hok]), if_neg (by simp [hok])]
      rfl

/-! ## Cycle re-entrancy guard (`src/server/cron-sync.ts`)

```
let syncing = false;
onTick: async () => {
  try {
    if (!syncing) { syncing = true; ...run the cycle... }
  } catch (error) { ... } finally { syncing = false; }
}
```

The guard check and set run synchronously, with no `await` between them,
so a trigger step is atomic against other triggers in the JS event loop.
But the `finally` belongs to the whole `onTick` body: it runs on every
invocation, including one whose guard was skipped — and on that skipped
path there is no `await`, so `syncing = false` executes synchronously as
part of the trigger step, while the first cycle is still running. -/

/-- State of the cron guard: the module-level `syncing` flag, the number
of cycles currently inside the guarded body (`active`), and the number of
completed cycles. -/
structure SyncState where
  syncing : Bool
  active : ℕ
  completed : ℕ
  deriving DecidableEq, Repr

/-- Events against the guard: a cron trigger firing `onTick`, and the
completion of a running cycle (that invocation reaching its
`finally`). -/
inductive SyncEv where
  | trigger
  | finish
  deriving DecidableEq, Repr

/-- One step of the guard. A trigger with `syncing` set skips the guarded
body (no cycle starts), but its invocation completes at once and its
`finally` clears the flag. A trigger with the flag clear sets it and
starts a cycle. A finish is a running cycle's invocation completing: its
`finally` clears the flag and the cycle is done. -/
def syncStep (s : SyncState) (e : SyncEv) : SyncState :=
  match e with
  | .trigger =>
    if s.syncing then { syncing := false, active := s.active, completed := s.completed }
    else { syncing := true, active := s.active + 1, completed := s.completed }
  | .finish =>
    if 0 < s.active then
      { syncing := false, active := s.active - 1, completed := s.completed + 1 }
    else s

/-- The initial state: flag clear, nothing running. -/
def initialSyncState : SyncState := ⟨false, 0, 0⟩

/-- The guard state after a sequence of trigger/finish events. -/
def runSyncEvents (evs : List SyncEv) : SyncState :=
  evs.foldl syncStep initialSyncState

/-- Claim C9 fails on the code: `onTick`'s `finally` runs even on an
invocation whose guard was skipped. After a first trigger starts a cycle
(still running), a second trigger starts no cycle but is not a no-op
either: it clears the flag; a third trigger then passes the guard and
starts a second cycle concurrent with the first — two cycles active at
once, falsifying the claimed mutual exclusion. -/
theorem skipped_trigger_clears_flag_and_breaks_mutual_exclusion :
    runSyncEvents [SyncEv.trigger] = ⟨true, 1, 0⟩ ∧
    runSyncEvents [SyncEv.trigger, SyncEv.trigger] = ⟨false, 1, 0⟩ ∧
    runSyncEvents [SyncEv.trigger, SyncEv.trigger] ≠ runSyncEvents [SyncEv.trigger] ∧
    (runSyncEvents [SyncEv.trigger, SyncEv.trigger, SyncEv.trigger]).active = 2 := by
  refine ⟨by decide, by decide, by decide, by decide⟩

/-! ## Batched upsert writer (`persistOHLCVInBatches`, lines 189-227)

```
await ensureTableExists(exchangeName, marketType);
for (let i = 0; i < data.length; i += batchSize) {
  const batchData = deduplicateOHLCVData(data.slice(i, i + batchSize));
  try { await retry(async () => { await persistToPostgres(batchData, ...) }, ...) }
  catch (error) { console.error(`Failed to persist batch ... will not be persisted`) }
}
```

Whether one batch's `retry` budget exhausts is abstracted by the `fails`
oracle over batch indices (the `retry` helper itself is not part of the
sources; only its bounded-attempts contract matters here). The `catch`
only logs, so a failed batch is skipped and the loop continues. -/

/-- `data.slice(i, i + batchSize)` at `i = j * batchSize`. -/
def batchSlice (data : List OHLCVDataItem) (batchSize j : ℕ) : List OHLCVDataItem :=
  (data.drop (j * batchSize)).take batchSize

/-- One deduplicated batch: `deduplicateOHLCVData(data.slice(i, i + batchSize))`. -/
def dedupSlice (data : List OHLCVDataItem) (batchSize j : ℕ) : List OHLCVDataItem :=
  deduplicateOHLCVData (batchSlice data batchSize j)

/-- The batch loop of `persistOHLCVInBatches` over the batch indices `L`:
a batch whose retry budget exhausts (per `fails`) is logged and skipped
(collected in the second component); every other batch is upserted. -/
def persistBatchLoop (data : List OHLCVDataItem) (batchSize : ℕ) (fails : ℕ → Bool) :
    List ℕ → List OHLCVDataItem × List ℕ → List OHLCVDataItem × List ℕ
  | [], acc => acc
  | j :: rest, (table, skipped) =>
    if fails j then
      persistBatchLoop data batchSize fails rest (table, skipped ++ [j])
    else
      persistBatchLoop data batchSize fails rest
        (persistToPostgres table (dedupSlice data batchSize j), skipped)

/-- `persistOHLCVInBatches` (lines 189-227) against an initially empty
partition table: the `for` loop visits `ceil(data.length / batchSize)`
batch indices in order; the function always returns normally — the
per-batch `catch` only logs. Returns the final table and the skipped
batch indices. -/
def persistOHLCVInBatches (data : List OHLCVDataItem) (batchSize : ℕ)
    (fails : ℕ → Bool) : List OHLCVDataItem × List ℕ :=
  persistBatchLoop data batchSize fails
    (List.range ((data.length + batchSize - 1) / batchSize)) ([], [])

lemma lookupRow_eq_none (t : List OHLCVDataItem) (k : String × ℤ)
    (h : ∀ x ∈ t, rowKey x ≠ k) : lookupRow t k = none := by
  rw [lookupRow, List.find?_eq_none]
  intro x hx
  simp only [beq_iff_eq]
  exact h x hx

lemma upsertRow_fresh (table : List OHLCVDataItem) (r : OHLCVDataItem)
    (h : ∀ x ∈ table, rowKey x ≠ rowKey r) : upsertRow table r = table ++ [r] := by
  have hany : ¬ (table.any (fun q => rowKey q == rowKey r) = true) := by
    rw [List.any_eq_true]
    rintro ⟨x, hx, hpx⟩
    exact h x hx (by simpa [beq_iff_eq] using hpx)
  rw [upsertRow, if_neg hany]

lemma persistToPostgres_fresh :
    ∀ (B table : List OHLCVDataItem),
      (∀ x ∈ B, ∀ y ∈ table, rowKey y ≠ rowKey x) →
      (B.map rowKey).Nodup →
      persistToPostgres table B = table ++ B := by
  intro B
  induction B with
  | nil => intro table _ _; simp [persistToPostgres]
  | cons x B' ih =>
    intro table hfresh hnodup
    rw [List.map_cons, List.nodup_cons] at hnodup
    have hstep : upsertRow table x = table ++ [x] :=
      upsertRow_fresh table x (fun y hy => hfresh x (List.mem_cons_self x B') y hy)
    have hfresh' : ∀ z ∈ B', ∀ y ∈ table ++ [x], rowKey y ≠ rowKey z := by
      intro z hz y hy
      rcases List.mem_append.mp hy with hy1 | hy2
      · exact hfresh z (List.mem_cons_of_mem x hz) y hy1
      · rcases List.mem_singleton.mp hy2 with rfl
        intro heq
        exact hnodup.1 (heq ▸ List.mem_map_of_mem rowKey hz)
    have := ih (table ++ [x]) hfresh' hnodup.2
    rw [show persistToPostgres table (x :: B')
          = persistToPostgres (upsertRow table x) B' from rfl, hstep, this,
      List.append_assoc, List.singleton_append]

lemma dedupOHLCVGo_eq_self :
    ∀ (B : List OHLCVDataItem) (seen : List (String × ℤ)),
      (∀ x ∈ B, (x.symbol, x.close_time) ∉ seen) →
      (B.map (fun r => (r.symbol, r.close_time))).Nodup →
      dedupOHLCVGo seen B = B := by
  intro B
  induction B with
  | nil => intro seen _ _; rfl
  | cons x B' ih =>
    intro seen hseen hnodup
    rw [List.map_cons, List.nodup_cons] at hnodup
    rw [show dedupOHLCVGo seen (x :: B')
          = if (x.symbol, x.close_time) ∈ seen then dedupOHLCVGo seen B'
            else x :: dedupOHLCVGo ((x.symbol, x.close_time) :: seen) B' from rfl,
      if_neg (hseen x (List.mem_cons_self x B'))]
    congr 1
    apply ih
    · intro z hz hmem
      rcases List.mem_cons.mp hmem with heq | hm
      · exact hnodup.1 (heq ▸ List.mem_map_of_mem _ hz)
      · exact hseen z (List.mem_cons_of_mem _ hz) hm
    · exact hnodup.2

lemma dedupSlice_eq_batchSlice (data : List OHLCVDataItem) (batchSize j : ℕ)
    (hct : (data.map (fun r => (r.symbol, r.close_time))).Nodup) :
    dedupSlice data batchSize j = batchSlice data batchSize j := by
  have hsub : (batchSlice data batchSize j).Sublist data :=
    (List.take_sublist _ _).trans (List.drop_sublist _ _)
  exact dedupOHLCVGo_eq_self _ [] (by intro x _ hmem; simp at hmem)
    ((hsub.map _).nodup hct)

lemma persistBatchLoop_spec (data : List OHLCVDataItem) (batchSize : ℕ)
    (fails : ℕ → Bool) :
    ∀ (L : List ℕ) (table : List OHLCVDataItem) (sk : List ℕ),
      ((table ++ (L.map (dedupSlice data batchSize)).flatten).map rowKey).Nodup →
      persistBatchLoop data batchSize fails L (table, sk)
        = (table ++ ((L.filter (fun j => !(fails j))).map
            (dedupSlice data batchSize)).flatten,
           sk ++ L.filter fails) := by
  intro L
  induction L with
  | nil => intro table sk _; simp [persistBatchLoop]
  | cons j rest ih =>
    intro table sk H
    rw [List.map_cons, List.flatten_cons] at H
    rw [show persistBatchLoop data batchSize fails (j :: rest) (table, sk)
          = if fails j then
              persistBatchLoop data batchSize fails rest (table, sk ++ [j])
            else
              persistBatchLoop data batchSize fails rest
                (persistToPostgres table (dedupSlice data batchSize j), sk) from rfl]
    by_cases hf : fails j = true
    · rw [if_pos hf]
      have hsub : (table ++ (rest.map (dedupSlice data batchSize)).flatten).Sublist
          (table ++ (dedupSlice data batchSize j
            ++ (rest.map (dedupSlice data batchSize)).flatten)) :=
        (List.sublist_append_right _ _).append_left table
      have H' := (hsub.map rowKey).nodup H
      rw [ih table (sk ++ [j]) H']
      rw [List.filter_cons, List.filter_cons]
      simp only [hf, Bool.not_true, if_pos]
      rw [List.append_assoc, List.singleton_append]
      simp
    · rw [if_neg hf]
      have hf' : fails j = false := by
        cases hfj : fails j
        · rfl
        · exact absurd hfj hf
      rw [List.map_append] at H
      rw [List.nodup_append] at H
      obtain ⟨htab, hrest0, hdisj⟩ := H
      rw [List.map_append, List.nodup_append] at hrest0
      obtain ⟨hslice, hflat, hdisj2⟩ := hrest0
      have hfreshslice : ∀ x ∈ dedupSlice data batchSize j, ∀ y ∈ table,
          rowKey y ≠ rowKey x := by
        intro x hx y hy heq
        exact hdisj (List.mem_map_of_mem rowKey hy)
          (by rw [List.map_append, List.mem_append]
              exact Or.inl (heq ▸ List.mem_map_of_mem rowKey hx))
      rw [persistToPostgres_fresh _ table hfreshslice hslice]
      have H' : (((table ++ dedupSlice data batchSize j)
          ++ (rest.map (dedupSlice data batchSize)).flatten).map rowKey).Nodup := by
        rw [List.append_assoc]
        rw [List.map_append, List.nodup_append]
        refine ⟨htab, ?_, hdisj⟩
        rw [List.map_append, List.nodup_append]
        exact ⟨hslice, hflat, hdisj2⟩
      rw [ih (table ++ dedupSlice data batchSize j) sk H']
      rw [List.filter_cons, List.filter_cons]
      simp only [hf', Bool.not_false, if_true]
      rw [List.map_cons, List.flatten_cons, List.append_assoc]
      simp

lemma flatten_batchSlices (batchSize : ℕ) (hbs : 0 < batchSize) :
    ∀ (n : ℕ) (data : List OHLCVDataItem), data.length = n →
      ((List.range ((data.length + batchSize - 1) / batchSize)).map
        (batchSlice data batchSize)).flatten = data := by
  intro n
  induction n using Nat.strong_induction_on with
  | _ n ih =>
    intro data hlen
    rcases data with _ | ⟨x, rest⟩
    · have h0 : (([] : List OHLCVDataItem).length + batchSize - 1) / batchSize = 0 := by
        apply Nat.div_eq_of_lt
        simp only [List.length_nil, Nat.zero_add]
        omega
      rw [h0]
      rfl
    · have hlen1 : 1 ≤ (x :: rest).length := by simp
      have hN : ((x :: rest).length + batchSize - 1) / batchSize
          = (((x :: rest).drop batchSize).length + batchSize - 1) / batchSize + 1 := by
        rw [List.length_drop]
        rcases le_or_lt batchSize (x :: rest).length with hle | hlt
        · have h1 : (x :: rest).length + batchSize - 1
              = ((x :: rest).length - batchSize + batchSize - 1) + batchSize := by
            omega
          rw [h1, Nat.add_div_right _ hbs]
        · have hL : ((x :: rest).length + batchSize - 1) / batchSize = 1 := by
            apply Nat.div_eq_of_lt_le
            · omega
            · omega
          have hR : ((x :: rest).length - batchSize + batchSize - 1) / batchSize = 0 := by
            apply Nat.div_eq_of_lt
            omega
          rw [hL, hR]
      rw [hN, List.range_succ_eq_map, List.map_cons, List.flatten_cons, List.map_map]
      have hslice0 : batchSlice (x :: rest) batchSize 0 = (x :: rest).take batchSize := by
        simp [batchSlice]
      have hsliceS : (batchSlice (x :: rest) batchSize ∘ Nat.succ)
          = batchSlice ((x :: rest).drop batchSize) batchSize := by
        funext i
        simp only [Function.comp_apply, batchSlice, List.drop_drop]
        have harith : batchSize + i * batchSize = (i + 1) * batchSize := by ring
        rw [harith]
      have ihlen : ((x :: rest).drop batchSize).length < n := by
        rw [List.length_drop]
        simp only [List.length_cons] at hlen ⊢
        omega
      rw [hslice0, hsliceS, ih _ ihlen ((x :: rest).drop batchSize) rfl]
      exact List.take_append_drop batchSize (x :: rest)

lemma filter_beq_range (j : ℕ) :
    ∀ N : ℕ, j < N → (List.range N).filter (fun i => i == j) = [j] := by
  intro N
  induction N with
  | zero => intro h; exact absurd h (Nat.not_lt_zero j)
  | succ N ih =>
    intro hj
    rw [List.range_succ, List.filter_append]
    rcases Nat.lt_or_ge j N with h1 | h1
    · rw [ih h1]
      have hN : (List.filter (fun i => i == j) [N]) = [] := by
        rw [List.filter_eq_nil_iff]
        intro a ha
        rcases List.mem_singleton.mp ha with rfl
        simp only [beq_iff_eq]
        omega
      rw [hN, List.append_nil]
    · have hjN : j = N := by omega
      subst hjN
      have h2 : (List.range j).filter (fun i => i == j) = [] := by
        rw [List.filter_eq_nil_iff]
        intro a ha
        have : a < j := List.mem_range.mp ha
        simp only [beq_iff_eq]
        omega
      rw [h2, List.nil_append]
      simp [List.filter]

/-- Claim C7: when batch `j`'s retry budget exhausts (the `fails` oracle
returns true exactly there), that batch is the only one skipped (it is
logged into the skip list), the final table holds exactly the
concatenation of every other batch, every row of every other batch is
persisted, and the run completes normally (the writer is a total
function: the per-batch catch only logs). -/
theorem failed_batch_skipped_and_other_batches_persisted
    (data : List OHLCVDataItem) (batchSize j : ℕ)
    (hbs : 0 < batchSize)
    (hkeys : (data.map rowKey).Nodup)
    (hct : (data.map (fun r => (r.symbol, r.close_time))).Nodup)
    (hj : j < (data.length + batchSize - 1) / batchSize) :
    (persistOHLCVInBatches data batchSize (fun i => i == j)).2 = [j] ∧
    (persistOHLCVInBatches data batchSize (fun i => i == j)).1
      = (((List.range ((data.length + batchSize - 1) / batchSize)).filter
            (fun i => !(i == j))).map (batchSlice data batchSize)).flatten ∧
    (∀ p : ℕ, ∀ hp : p < data.length, p / batchSize ≠ j →
      data.get ⟨p, hp⟩ ∈ (persistOHLCVInBatches data batchSize (fun i => i == j)).1) := by
  have hds : ∀ L : List ℕ,
      L.map (dedupSlice data batchSize) = L.map (batchSlice data batchSize) :=
    fun L => List.map_congr_left (fun i _ => dedupSlice_eq_batchSlice data batchSize i hct)
  have hH : ((([] : List OHLCVDataItem)
      ++ ((List.range ((data.length + batchSize - 1) / batchSize)).map
          (dedupSlice data batchSize)).flatten).map rowKey).Nodup := by
    rw [List.nil_append, hds, flatten_batchSlices batchSize hbs data.length data rfl]
    exact hkeys
  have hmain : persistOHLCVInBatches data batchSize (fun i => i == j)
      = ([] ++ (((List.range ((data.length + batchSize - 1) / batchSize)).filter
            (fun i => !(i == j))).map (dedupSlice data batchSize)).flatten,
         [] ++ (List.range ((data.length + batchSize - 1) / batchSize)).filter
            (fun i => i == j)) :=
    persistBatchLoop_spec data batchSize (fun i => i == j)
      (List.range ((data.length + batchSize - 1) / batchSize)) [] [] hH
  have hskip : (persistOHLCVInBatches data batchSize (fun i => i == j)).2 = [j] := by
    rw [hmain]
    show [] ++ (List.range ((data.length + batchSize - 1) / batchSize)).filter
        (fun i => i == j) = [j]
    rw [List.nil_append, filter_beq_range j _ hj]
  have hfinal : (persistOHLCVInBatches data batchSize (fun i => i == j)).1
      = (((List.range ((data.length + batchSize - 1) / batchSize)).filter
            (fun i => !(i == j))).map (batchSlice data batchSize)).flatten := by
    rw [hmain]
    show [] ++ (((List.range ((data.length + batchSize - 1) / batchSize)).filter
            (fun i => !(i == j))).map (dedupSlice data batchSize)).flatten = _
    rw [List.nil_append, hds]
  refine ⟨hskip, hfinal, ?_⟩
  intro p hp hpj
  have hb_le : (p / batchSize) * batchSize ≤ p := Nat.div_mul_le_self p batchSize
  have hmodlt : p % batchSize < batchSize := Nat.mod_lt _ hbs
  have hdm := Nat.div_add_mod p batchSize
  have hcomm : batchSize * (p / batchSize) = (p / batchSize) * batchSize :=
    Nat.mul_comm _ _
  have hmod : p - (p / batchSize) * batchSize = p % batchSize := by omega
  have hlen1 : 1 ≤ data.length := by omega
  have hNeq : (data.length + batchSize - 1) / batchSize
      = (data.length - 1) / batchSize + 1 := by
    have h1 : data.length + batchSize - 1 = (data.length - 1) + batchSize := by omega
    rw [h1, Nat.add_div_right _ hbs]
  have hbN : p / batchSize < (data.length + batchSize - 1) / batchSize := by
    have h2 : p / batchSize ≤ (data.length - 1) / batchSize :=
      Nat.div_le_div_right (by omega)
    omega
  have hplen : p - (p / batchSize) * batchSize
      < ((data.drop ((p / batchSize) * batchSize)).take batchSize).length := by
    rw [List.length_take, List.length_drop]
    apply lt_min
    · omega
    · omega
  have helem : ((data.drop ((p / batchSize) * batchSize)).take batchSize).get
      ⟨p - (p / batchSize) * batchSize, hplen⟩ = data.get ⟨p, hp⟩ := by
    rw [List.get_eq_getElem, List.get_eq_getElem]
    rw [List.getElem_take, List.getElem_drop]
    congr 1
    show p / batchSize * batchSize + (p - p / batchSize * batchSize) = p
    omega
  have hmem_slice : data.get ⟨p, hp⟩ ∈ batchSlice data batchSize (p / batchSize) := by
    rw [batchSlice, ← helem, List.get_eq_getElem]
    exact List.getElem_mem _
  have hb_filter : p / batchSize ∈ (List.range ((data.length + batchSize - 1) / batchSize)).filter
      (fun i => !(i == j)) := by
    rw [List.mem_filter]
    refine ⟨List.mem_range.mpr hbN, ?_⟩
    simp [hpj]
  rw [hfinal]
  exact List.mem_flatten.mpr ⟨batchSlice data batchSize (p / batchSize),
    List.mem_map_of_mem _ hb_filter, hmem_slice⟩

/-- Witness for claim C7: three one-row batches with batch 1 failing —
only batch 1 is skipped, and the rows of batches 0 and 2 are
persisted. -/
theorem failed_batch_skipped_and_other_batches_persisted_witness :
    (persistOHLCVInBatches
        [⟨"A", 0, 1, 1, 1, 1, 1, 60000⟩, ⟨"A", 60000, 2, 2, 2, 2, 2, 120000⟩,
         ⟨"A", 120000, 3, 3, 3, 3, 3, 180000⟩] 1 (fun i => i == 1)).2 = [1] ∧
    (⟨"A", 0, 1, 1, 1, 1, 1, 60000⟩ : OHLCVDataItem)
      ∈ (persistOHLCVInBatches
        [⟨"A", 0, 1, 1, 1, 1, 1, 60000⟩, ⟨"A", 60000, 2, 2, 2, 2, 2, 120000⟩,
         ⟨"A", 120000, 3, 3, 3, 3, 3, 180000⟩] 1 (fun i => i == 1)).1 ∧
    (⟨"A", 120000, 3, 3, 3, 3, 3, 180000⟩ : OHLCVDataItem)
      ∈ (persistOHLCVInBatches
        [⟨"A", 0, 1, 1, 1, 1, 1, 60000⟩, ⟨"A", 60000, 2, 2, 2, 2, 2, 120000⟩,
         ⟨"A", 120000, 3, 3, 3, 3, 3, 180000⟩] 1 (fun i => i == 1)).1 := by
  have h := failed_batch_skipped_and_other_batches_persisted
    [⟨"A", 0, 1, 1, 1, 1, 1, 60000⟩, ⟨"A", 60000, 2, 2, 2, 2, 2, 120000⟩,
     ⟨"A", 120000, 3, 3, 3, 3, 3, 180000⟩] 1 1
    (by norm_num) (by decide) (by decide) (by norm_num)
  exact ⟨h.1, h.2.2 0 (by norm_num) (by decide), h.2.2 2 (by norm_num) (by decide)⟩
